import Mathlib

/-
Verification of the goose knowledge-base graph store and extraction pipeline
(crates/goose_kb/src/lib.rs and crates/goose_kb/src/extraction.rs).

Shallow embedding notes:
* Rust's serde_json::Value is modelled by the inductive `Json` below; JSON
  numbers are modelled as integers (every number appearing in the spec and
  claims is a small integer).
* Rust HashMap/HashSet are modelled by association lists / lists with
  insert-if-absent semantics; iteration order is fixed to insertion order
  (a deterministic refinement of the arbitrary iteration order of the
  Rust collections).
* chrono timestamps are modelled as naturals, with the current time passed
  as an explicit argument to the operations that read the clock.
* Uuid::new_v4 is modelled by an explicit supply of fresh strings indexed by
  a counter that is threaded through the computation.
* The store's Mutex-per-table locking is erased: every public operation is
  modelled as a sequential function from state to (result, state).
-/

namespace KB

/-- Model of serde_json::Value. Objects and the maps inside them are
association lists keyed by strings. -/
inductive Json where
  | null : Json
  | bool (b : Bool) : Json
  | num (n : Int) : Json
  | str (s : String) : Json
  | arr (elems : List Json) : Json
  | obj (fields : List (String × Json)) : Json

/-- Association-list maps with string keys, modelling HashMap. Lookup finds
the first matching key. -/
abbrev SMap (α : Type) : Type := List (String × α)

/-- First-match lookup, modelling HashMap::get. -/
def mlookup {α : Type} : SMap α → String → Option α
  | [], _ => none
  | (k', v) :: rest, k => if k' = k then some v else mlookup rest k

/-- Insert-or-replace, modelling HashMap::insert (replaces the existing
entry in place, otherwise appends). -/
def minsert {α : Type} : SMap α → String → α → SMap α
  | [], k, v => [(k, v)]
  | (k', v') :: rest, k, v =>
    if k' = k then (k, v) :: rest else (k', v') :: minsert rest k v

/-- Remove a key, modelling HashMap::remove. -/
def merase {α : Type} : SMap α → String → SMap α
  | [], _ => []
  | (k', v') :: rest, k =>
    if k' = k then merase rest k else (k', v') :: merase rest k

/-- Insert into a set of strings, modelling HashSet::insert. -/
def sinsert (l : List String) (x : String) : List String :=
  if x ∈ l then l else l ++ [x]

/-- Remove from a set of strings, modelling HashSet::remove. -/
def sremove (l : List String) (x : String) : List String :=
  l.filter (fun y => y ≠ x)

/-- Extend a set with the members of another, modelling HashSet::extend. -/
def sextend (l : List String) (xs : List String) : List String :=
  xs.foldl sinsert l

/-- The closed node-kind taxonomy (enum NodeType in lib.rs). -/
inductive NodeType where
  | Agent | User | Session
  | Tool | ToolCall | ReasoningTrace | Feedback
  | File | WebResource | Directory | Message
  | Concept | Skill | Plan | PlanStep
  | ExternalEntity | SoftwarePackage | ApiEndpoint
  | Generic
deriving DecidableEq

/-- Model of format!("\x7b:?\x7d", node_type): the Debug representation of a
NodeType is its variant name. -/
def NodeType.debugRepr : NodeType → String
  | .Agent => "Agent" | .User => "User" | .Session => "Session"
  | .Tool => "Tool" | .ToolCall => "ToolCall"
  | .ReasoningTrace => "ReasoningTrace" | .Feedback => "Feedback"
  | .File => "File" | .WebResource => "WebResource"
  | .Directory => "Directory" | .Message => "Message"
  | .Concept => "Concept" | .Skill => "Skill"
  | .Plan => "Plan" | .PlanStep => "PlanStep"
  | .ExternalEntity => "ExternalEntity"
  | .SoftwarePackage => "SoftwarePackage" | .ApiEndpoint => "ApiEndpoint"
  | .Generic => "Generic"

/-- The closed edge-kind taxonomy (enum EdgeType in lib.rs). -/
inductive EdgeType where
  | Initiated | BelongsToSession | ExecutedByUser | ExecutedByAgent
  | PartOfPlan | NextStep | Triggers
  | HasCapability | UsesTool | RecommendsTool
  | Mentions | ReferencesFile | ReferencesResource | OutputFile
  | InputTo | OutputFrom
  | HasKnowledgeAbout | LearnedFrom | RelatedTo | InstanceOf | SubConceptOf
  | ProvidesFeedbackOn | AssociatedWith
  | ContainsFile | ParentDirectory
deriving DecidableEq

/-- struct Node in lib.rs; timestamps are modelled as naturals. -/
structure Node where
  id : String
  node_type : NodeType
  labels : List String
  properties : Json
  created_at : Nat
  updated_at : Nat

/-- Node::new: the default label is the Debug representation of the type,
both timestamps are the current time. -/
def Node.new (id : String) (node_type : NodeType) (properties : Json)
    (now : Nat) : Node :=
  { id := id, node_type := node_type, labels := [node_type.debugRepr],
    properties := properties, created_at := now, updated_at := now }

/-- struct Edge in lib.rs. -/
structure Edge where
  id : String
  source_node_id : String
  target_node_id : String
  edge_type : EdgeType
  properties : Json
  created_at : Nat
  updated_at : Nat

/-- The InMemoryKnowledgeStore state: node table, edge table and the two
adjacency indices (node id to set of edge ids). -/
structure KBState where
  nodes : SMap Node
  edges : SMap Edge
  adj_outgoing : SMap (List String)
  adj_incoming : SMap (List String)

/-- InMemoryKnowledgeStore::new. -/
def KBState.empty : KBState :=
  { nodes := [], edges := [], adj_outgoing := [], adj_incoming := [] }

/-- entry(k).or_default(): ensure an (possibly empty) entry exists for k. -/
def adjEnsure (adj : SMap (List String)) (k : String) : SMap (List String) :=
  match mlookup adj k with
  | some _ => adj
  | none => minsert adj k []

/-- entry(k).or_default().insert(eid): add eid to the entry for k, creating
the entry when absent. -/
def adjAdd (adj : SMap (List String)) (k eid : String) : SMap (List String) :=
  minsert adj k (sinsert ((mlookup adj k).getD []) eid)

/-- get_mut(k) followed by remove(eid): delete eid from k's entry when that
entry exists, otherwise leave the index unchanged. -/
def adjDel (adj : SMap (List String)) (k eid : String) : SMap (List String) :=
  match mlookup adj k with
  | some l => minsert adj k (sremove l eid)
  | none => adj

/-- eid is a member of the index entry for k (an absent entry has no
members). -/
def adjHas (adj : SMap (List String)) (k eid : String) : Prop :=
  eid ∈ ((mlookup adj k).getD [])

instance (adj : SMap (List String)) (k eid : String) :
    Decidable (adjHas adj k eid) := by
  unfold adjHas; infer_instance

/-- add_node in lib.rs (conflict on an existing id, otherwise insert the
node and ensure empty adjacency entries). -/
def add_node (s : KBState) (node : Node) : Except String Unit × KBState :=
  if (mlookup s.nodes node.id).isSome then
    (.error ("Node with id " ++ node.id ++ " already exists"), s)
  else
    (.ok (), { s with
      nodes := minsert s.nodes node.id node,
      adj_outgoing := adjEnsure s.adj_outgoing node.id,
      adj_incoming := adjEnsure s.adj_incoming node.id })

/-- add_edge in lib.rs: id-conflict check first, then the two endpoint
existence checks, then the insert into the edge table and both indices. -/
def add_edge (s : KBState) (edge : Edge) : Except String Unit × KBState :=
  if (mlookup s.edges edge.id).isSome then
    (.error ("Edge with id " ++ edge.id ++ " already exists"), s)
  else if (mlookup s.nodes edge.source_node_id).isNone then
    (.error ("Source node " ++ edge.source_node_id ++ " not found for edge "
             ++ edge.id), s)
  else if (mlookup s.nodes edge.target_node_id).isNone then
    (.error ("Target node " ++ edge.target_node_id ++ " not found for edge "
             ++ edge.id), s)
  else
    (.ok (), { s with
      edges := minsert s.edges edge.id edge,
      adj_outgoing := adjAdd s.adj_outgoing edge.source_node_id edge.id,
      adj_incoming := adjAdd s.adj_incoming edge.target_node_id edge.id })

/-- get_node_by_id in lib.rs (absence is a valid result, not an error). -/
def get_node_by_id (s : KBState) (node_id : String) :
    Except String (Option Node) :=
  .ok (mlookup s.nodes node_id)

/-- get_edges_by_node_id in lib.rs: build the de-duplicated set of edge ids
from the requested directions (default "both"), then look each id up in the
edge table. -/
def get_edges_by_node_id (s : KBState) (node_id : String)
    (direction : Option String) : Except String (List Edge) :=
  let dir_str := direction.getD "both"
  let ids₁ :=
    if dir_str = "outgoing" ∨ dir_str = "both" then
      sextend [] ((mlookup s.adj_outgoing node_id).getD [])
    else []
  let ids₂ :=
    if dir_str = "incoming" ∨ dir_str = "both" then
      sextend ids₁ ((mlookup s.adj_incoming node_id).getD [])
    else ids₁
  .ok (ids₂.filterMap (mlookup s.edges))

/-- query_cypher in lib.rs: unconditionally unsupported. -/
def query_cypher (_s : KBState) (_query : String) : Except String Unit :=
  .error "Cypher queries are not supported by InMemoryKnowledgeStore"

/-- Merging a patch object into a stored object: insert every patch pair in
order (for (k, v) in update_map, current_props.insert(k, v)). -/
def mergeFold (cur : SMap Json) (patch : SMap Json) : SMap Json :=
  patch.foldl (fun acc kv => minsert acc kv.1 kv.2) cur

/-- update_node_properties in lib.rs: shallow merge of an object patch into
object-shaped stored properties; errors on a missing node or non-object
shapes, mutating nothing on failure. -/
def update_node_properties (s : KBState) (node_id : String) (patch : Json)
    (now : Nat) : Except String Unit × KBState :=
  match mlookup s.nodes node_id with
  | none => (.error ("Node with id " ++ node_id ++ " not found"), s)
  | some node =>
    match patch with
    | .obj update_map =>
      match node.properties with
      | .obj current_props =>
        let node' := { node with
          properties := .obj (mergeFold current_props update_map),
          updated_at := now }
        (.ok (), { s with nodes := minsert s.nodes node_id node' })
      | _ => (.error "Node properties are not a JSON object", s)
    | _ => (.error "properties_to_update must be a JSON object", s)

/-- update_edge_properties in lib.rs, mirroring update_node_properties. -/
def update_edge_properties (s : KBState) (edge_id : String) (patch : Json)
    (now : Nat) : Except String Unit × KBState :=
  match mlookup s.edges edge_id with
  | none => (.error ("Edge with id " ++ edge_id ++ " not found"), s)
  | some edge =>
    match patch with
    | .obj update_map =>
      match edge.properties with
      | .obj current_props =>
        let edge' := { edge with
          properties := .obj (mergeFold current_props update_map),
          updated_at := now }
        (.ok (), { s with edges := minsert s.edges edge_id edge' })
      | _ => (.error "Edge properties are not a JSON object", s)
    | _ => (.error "properties_to_update must be a JSON object", s)

/-- delete_edge in lib.rs: remove the edge from the edge table and from the
two adjacency entries of its endpoints; NotFound error when absent. -/
def delete_edge (s : KBState) (edge_id : String) :
    Except String Unit × KBState :=
  match mlookup s.edges edge_id with
  | some edge =>
    (.ok (), { s with
      edges := merase s.edges edge_id,
      adj_outgoing := adjDel s.adj_outgoing edge.source_node_id edge_id,
      adj_incoming := adjDel s.adj_incoming edge.target_node_id edge_id })
  | none => (.error ("Edge with id " ++ edge_id ++ " not found for deletion"), s)

/-- The cascade loop of delete_node: delete each collected edge id in turn,
propagating the first failure (the source's question-mark operator). -/
def deleteEdgesLoop : List String → KBState → Except String Unit × KBState
  | [], s => (.ok (), s)
  | eid :: rest, s =>
    match delete_edge s eid with
    | (.ok _, s') => deleteEdgesLoop rest s'
    | (.error e, s') => (.error e, s')

/-- The edge ids collected by delete_node before the cascade: the union of
the node's outgoing and incoming entries. -/
def edgesToRemove (s : KBState) (node_id : String) : List String :=
  sextend (sextend [] ((mlookup s.adj_outgoing node_id).getD []))
    ((mlookup s.adj_incoming node_id).getD [])

/-- delete_node in lib.rs: collect the incident edge ids from both indices,
cascade-delete them (propagating any failure), then remove the node and its
adjacency entries, or report NotFound when the node is absent. -/
def delete_node (s : KBState) (node_id : String) :
    Except String Unit × KBState :=
  match deleteEdgesLoop (edgesToRemove s node_id) s with
  | (.error e, s') => (.error e, s')
  | (.ok _, s') =>
    match mlookup s'.nodes node_id with
    | none =>
      (.error ("Node with id " ++ node_id ++ " not found for deletion"),
       { s' with nodes := merase s'.nodes node_id })
    | some _ =>
      (.ok (), { s' with
        nodes := merase s'.nodes node_id,
        adj_outgoing := merase s'.adj_outgoing node_id,
        adj_incoming := merase s'.adj_incoming node_id })

/-! ## Extraction pipeline (extraction.rs) -/

/-- Model of str::to_lowercase as used by the extraction type mappers (the
strings involved are ASCII). -/
def lowerStr (s : String) : String :=
  String.mk (s.data.map Char.toLower)

/-- struct ExtractionContext in extraction.rs. -/
structure ExtractionContext where
  session_id : String
  source_document_uri : Option String
  related_trace_id : Option String
  target_concept_id : Option String
  extraction_prompt_template : Option String
  custom_extraction_rules : Option Json

/-- struct ExtractedEntityInfo in extraction.rs. -/
structure ExtractedEntityInfo where
  id : Option String
  name : String
  entity_type : String
  properties : Option (SMap Json)

/-- struct ExtractedRelationInfo in extraction.rs. -/
structure ExtractedRelationInfo where
  source_entity_name : String
  target_entity_name : String
  relation_type : String
  properties : Option (SMap Json)

/-- struct LlmExtractionOutput in extraction.rs. -/
structure LlmExtractionOutput where
  entities : List ExtractedEntityInfo
  relations : List ExtractedRelationInfo

/-- map_str_to_nodetype in extraction.rs: fixed case-insensitive lookup,
defaulting to Generic. -/
def map_str_to_nodetype (s : String) : NodeType :=
  match lowerStr s with
  | "person" | "people" => .ExternalEntity
  | "organization" | "org" => .ExternalEntity
  | "location" | "place" => .ExternalEntity
  | "file" => .File
  | "tool" => .Tool
  | "concept" => .Concept
  | "task" => .Plan
  | _ => .Generic

/-- map_str_to_edgetype in extraction.rs: fixed case-insensitive lookup,
defaulting to RelatedTo. -/
def map_str_to_edgetype (s : String) : EdgeType :=
  match lowerStr s with
  | "uses" | "employs" | "utilizes" => .UsesTool
  | "mentions" | "refers_to" | "discusses" => .Mentions
  | "related_to" | "associated_with" => .RelatedTo
  | "works_on" | "modifies" => .ReferencesFile
  | "is_a" | "instance_of" => .InstanceOf
  | _ => .RelatedTo

/-- serde deserialization of one element of the entities list. -/
def decodeEntity (j : Json) : Except String ExtractedEntityInfo :=
  match j with
  | .obj fs =>
    match mlookup fs "name" with
    | some (.str name) =>
      match mlookup fs "entity_type" with
      | some (.str etype) =>
        match mlookup fs "id" with
        | some (.str i) => decodeEntityProps fs (some i) name etype
        | some .null | none => decodeEntityProps fs none name etype
        | some _ => .error "invalid type for field id"
      | _ => .error "missing or invalid field entity_type"
    | _ => .error "missing or invalid field name"
  | _ => .error "invalid type: expected struct ExtractedEntityInfo"
where
  decodeEntityProps (fs : List (String × Json)) (i : Option String)
      (name etype : String) : Except String ExtractedEntityInfo :=
    match mlookup fs "properties" with
    | some (.obj ps) => .ok ⟨i, name, etype, some ps⟩
    | some .null | none => .ok ⟨i, name, etype, none⟩
    | some _ => .error "invalid type for field properties"

/-- serde deserialization of one element of the relations list. -/
def decodeRelation (j : Json) : Except String ExtractedRelationInfo :=
  match j with
  | .obj fs =>
    match mlookup fs "source_entity_name" with
    | some (.str src) =>
      match mlookup fs "target_entity_name" with
      | some (.str tgt) =>
        match mlookup fs "relation_type" with
        | some (.str rel) =>
          match mlookup fs "properties" with
          | some (.obj ps) => .ok ⟨src, tgt, rel, some ps⟩
          | some .null | none => .ok ⟨src, tgt, rel, none⟩
          | some _ => .error "invalid type for field properties"
        | _ => .error "missing or invalid field relation_type"
      | _ => .error "missing or invalid field target_entity_name"
    | _ => .error "missing or invalid field source_entity_name"
  | _ => .error "invalid type: expected struct ExtractedRelationInfo"

/-- Deserialize every element of a JSON list, failing on the first
malformed element. -/
def decodeList {α : Type} (f : Json → Except String α) :
    List Json → Except String (List α)
  | [] => .ok []
  | j :: rest => do
    let a ← f j
    let as ← decodeList f rest
    .ok (a :: as)

/-- serde deserialization of the whole collaborator document: an object with
an entities list and a relations list, each element well-shaped. -/
def LlmExtractionOutput.fromJson (j : Json) :
    Except String LlmExtractionOutput :=
  match j with
  | .obj fs =>
    match mlookup fs "entities" with
    | some (.arr es) =>
      match mlookup fs "relations" with
      | some (.arr rs) => do
        let ents ← decodeList decodeEntity es
        let rels ← decodeList decodeRelation rs
        .ok ⟨ents, rels⟩
      | _ => .error "missing or invalid field relations"
    | _ => .error "missing or invalid field entities"
  | _ => .error "invalid type: expected struct LlmExtractionOutput"

/-- Model of str::replace (all occurrences), used for the prompt template
substitution. -/
def substText (template marker text : String) : String :=
  String.intercalate text (template.splitOn marker)

/-- The default extraction prompt template from extraction.rs. -/
def defaultPromptTemplate : String :=
  "Extract named entities and simple relationships from the following text.
            Output MUST be a single JSON object with two keys: 'entities' and 'relations'.
            'entities' is a list of objects, each with 'name' (string), 'entity_type' (e.g., Person, File, Tool, Concept, Organization), and optional 'properties' (object).
            'relations' is a list of objects, each with 'source_entity_name', 'target_entity_name', 'relation_type' (e.g., Uses, Mentions, RelatedTo), and optional 'properties' (object).
            Text to process:
            ---
            \x7btext_content\x7d
            ---
            JSON Output:"

/-- The entity loop of extract_from_text: for each extracted entity take the
provided id or synthesize one from the lowercased type string and a fresh
uuid, map the type string into the taxonomy, merge the name and extra
properties, and key the node by entity name in the batch map. The uuid
counter is threaded explicitly. -/
def processEntities (uuids : Nat → String) (now : Nat) :
    List ExtractedEntityInfo → SMap Node → Nat → SMap Node × Nat
  | [], m, c => (m, c)
  | ent :: rest, m, c =>
    let idc : String × Nat :=
      match ent.id with
      | some i => (i, c)
      | none =>
        ("urn:goose:entity:" ++ lowerStr ent.entity_type ++ ":" ++ uuids c,
         c + 1)
    let node_type := map_str_to_nodetype ent.entity_type
    let properties : Json :=
      match ent.properties with
      | none => .obj [("name", .str ent.name)]
      | some p => .obj (mergeFold [("name", .str ent.name)] p)
    let node := Node.new idc.1 node_type properties now
    processEntities uuids now rest (minsert m ent.name node) idc.2

/-- The relation loop of extract_from_text: resolve both endpoint names
against the batch map; build an edge (with a fresh uuid) when both resolve,
drop the relation otherwise. -/
def processRelations (uuids : Nat → String) (now : Nat) :
    List ExtractedRelationInfo → SMap Node → Nat → List Edge × Nat
  | [], _, c => ([], c)
  | r :: rest, m, c =>
    match mlookup m r.source_entity_name, mlookup m r.target_entity_name with
    | some source_node, some target_node =>
      let edge : Edge :=
        { id := uuids c,
          source_node_id := source_node.id,
          target_node_id := target_node.id,
          edge_type := map_str_to_edgetype r.relation_type,
          properties := match r.properties with
                        | none => .null
                        | some p => .obj p,
          created_at := now, updated_at := now }
      let rec_result := processRelations uuids now rest m (c + 1)
      (edge :: rec_result.1, rec_result.2)
    | _, _ => processRelations uuids now rest m c

/-- extract_from_text in extraction.rs. The external collaborator call is a
parameter (llmResult: the outcome of provider.complete followed by
as_concat_text), as is the JSON text parser (parseJson, modelling the
serde_json lexer), the uuid supply and the clock. Returns either a failure
string or the list of (node, edges) pairs; per the source, the success value
is a single pair of the first batch node with every extracted edge (or the
empty list when no entity was extracted). -/
def extract_from_text (llmResult : Except String String)
    (parseJson : String → Except String Json)
    (uuids : Nat → String) (now : Nat)
    (context : ExtractionContext) (text_content : String) :
    Except String (List (Node × List Edge)) :=
  let prompt_template :=
    context.extraction_prompt_template.getD defaultPromptTemplate
  let _system_prompt := substText prompt_template "\x7btext_content\x7d" text_content
  match llmResult with
  | .error e => .error ("LLM call failed during extraction: " ++ e)
  | .ok llm_output_text =>
    match (parseJson llm_output_text).bind LlmExtractionOutput.fromJson with
    | .error e =>
      .error ("Failed to parse LLM JSON output for extraction: " ++ e
              ++ ". Output was: " ++ llm_output_text)
    | .ok extracted_data =>
      let entsRes := processEntities uuids now extracted_data.entities [] 0
      let relsRes :=
        processRelations uuids now extracted_data.relations entsRes.1 entsRes.2
      match entsRes.1.map Prod.snd with
      | [] => .ok []
      | first_node :: _ => .ok [(first_node, relsRes.1)]

/-! ## The invariants, reachability, and concrete instances -/

/-- The stated invariant of the store (spec section 3): every edge in the
edge table is indexed in outgoing[source] and incoming[target] and in no
other entry, and every node in the node table has entries in both indices. -/
def Inv (s : KBState) : Prop :=
  (∀ k e, mlookup s.edges k = some e →
      adjHas s.adj_outgoing e.source_node_id e.id ∧
      adjHas s.adj_incoming e.target_node_id e.id ∧
      (∀ k', k' ≠ e.source_node_id → ¬ adjHas s.adj_outgoing k' e.id) ∧
      (∀ k', k' ≠ e.target_node_id → ¬ adjHas s.adj_incoming k' e.id)) ∧
  (∀ nid, (mlookup s.nodes nid).isSome →
      (mlookup s.adj_outgoing nid).isSome ∧
      (mlookup s.adj_incoming nid).isSome)

/-- The inductive strengthening of the invariant that the operations
actually preserve: tables are keyed by the stored ids, the indices are
complete and sound for the edge table, and the index key sets coincide
with the node table's key set. -/
structure InvStrong (s : KBState) : Prop where
  wf_nodes : ∀ k n, mlookup s.nodes k = some n → n.id = k
  wf_edges : ∀ k e, mlookup s.edges k = some e → e.id = k
  out_complete : ∀ k e, mlookup s.edges k = some e →
    adjHas s.adj_outgoing e.source_node_id k
  in_complete : ∀ k e, mlookup s.edges k = some e →
    adjHas s.adj_incoming e.target_node_id k
  out_sound : ∀ k eid, adjHas s.adj_outgoing k eid →
    ∃ e, mlookup s.edges eid = some e ∧ e.source_node_id = k
  in_sound : ∀ k eid, adjHas s.adj_incoming k eid →
    ∃ e, mlookup s.edges eid = some e ∧ e.target_node_id = k
  out_keys : ∀ k, (mlookup s.adj_outgoing k).isSome
    ↔ (mlookup s.nodes k).isSome
  in_keys : ∀ k, (mlookup s.adj_incoming k).isSome
    ↔ (mlookup s.nodes k).isSome

/-- The reachable states of the store: the empty store and every state
obtained from a reachable one by a mutating public operation, whether that
operation succeeded or failed. -/
inductive Reachable : KBState → Prop where
  | init : Reachable KBState.empty
  | step_add_node (s : KBState) (n : Node) :
      Reachable s → Reachable (add_node s n).2
  | step_add_edge (s : KBState) (e : Edge) :
      Reachable s → Reachable (add_edge s e).2
  | step_update_node (s : KBState) (nid : String) (p : Json) (now : Nat) :
      Reachable s → Reachable (update_node_properties s nid p now).2
  | step_update_edge (s : KBState) (eid : String) (p : Json) (now : Nat) :
      Reachable s → Reachable (update_edge_properties s eid p now).2
  | step_delete_edge (s : KBState) (eid : String) :
      Reachable s → Reachable (delete_edge s eid).2
  | step_delete_node (s : KBState) (nid : String) :
      Reachable s → Reachable (delete_node s nid).2

/-- Concrete node "a" used in the concrete instances below. -/
def nodeA : Node := Node.new "a" .User (.obj []) 0

/-- Concrete node "b". -/
def nodeB : Node := Node.new "b" .Tool (.obj []) 0

/-- Concrete node "p" with object-shaped properties. -/
def nodeP : Node := Node.new "p" .User (.obj [("x", .num 9)]) 0

/-- Concrete edge from "a" to "b". -/
def edgeAB : Edge :=
  { id := "e1", source_node_id := "a", target_node_id := "b",
    edge_type := .UsesTool, properties := .null,
    created_at := 0, updated_at := 0 }

/-- Concrete edge from "b" to "a". -/
def edgeBA : Edge :=
  { id := "e2", source_node_id := "b", target_node_id := "a",
    edge_type := .RelatedTo, properties := .null,
    created_at := 0, updated_at := 0 }

/-- Store holding nodes "a" and "b" and the edge "e1" from "a" to "b",
built through the public operations. -/
def storeAB : KBState :=
  (add_edge (add_node (add_node KBState.empty nodeA).2 nodeB).2 edgeAB).2

/-- Store in which node "a" has an outgoing edge "e1" and an incoming
edge "e2", built through the public operations. -/
def storeBoth : KBState := (add_edge storeAB edgeBA).2

/-- Store holding node "p", built through the public operations. -/
def storeP : KBState := (add_node KBState.empty nodeP).2

/-- A raw state in which the adjacency entry of node "n" holds the edge id
"ghost" that is absent from the edge table. -/
def storeGhost : KBState :=
  { nodes := [("n", Node.new "n" .User (.obj []) 0)],
    edges := [],
    adj_outgoing := [("n", ["ghost"])],
    adj_incoming := [("n", [])] }

/-- A raw state whose edge table already holds an edge with id "e1" while
the node table is empty. -/
def storeConflict : KBState :=
  { nodes := [], edges := [("e1", edgeAB)],
    adj_outgoing := [], adj_incoming := [] }

/-- An edge whose id collides with the stored edge "e1" and whose source
node is absent. -/
def edgeMissingSrc : Edge :=
  { id := "e1", source_node_id := "zzz", target_node_id := "b",
    edge_type := .UsesTool, properties := .null,
    created_at := 0, updated_at := 0 }

/-- A fresh edge whose source node "zzz" is absent from storeAB. -/
def edgeFreshMissing : Edge :=
  { id := "e9", source_node_id := "zzz", target_node_id := "b",
    edge_type := .UsesTool, properties := .null,
    created_at := 0, updated_at := 0 }

/-- An ExtractionContext with every optional field absent. -/
def ctx0 : ExtractionContext :=
  { session_id := "session-1", source_document_uri := none,
    related_trace_id := none, target_concept_id := none,
    extraction_prompt_template := none, custom_extraction_rules := none }

/-- The collaborator document of the spec scenario: entities Alice (Person)
and Compiler (Tool), one Uses relation from Alice to Compiler. -/
def scenarioJson : Json :=
  .obj [("entities", .arr [
      .obj [("name", .str "Alice"), ("entity_type", .str "Person")],
      .obj [("name", .str "Compiler"), ("entity_type", .str "Tool")]]),
    ("relations", .arr [
      .obj [("source_entity_name", .str "Alice"),
            ("target_entity_name", .str "Compiler"),
            ("relation_type", .str "Uses")]])]

/-- A collaborator document with entities A (Person) and B (Tool) and one
relation whose target name C matches no entity of the batch. -/
def c8Json : Json :=
  .obj [("entities", .arr [
      .obj [("name", .str "A"), ("entity_type", .str "Person")],
      .obj [("name", .str "B"), ("entity_type", .str "Tool")]]),
    ("relations", .arr [
      .obj [("source_entity_name", .str "A"),
            ("target_entity_name", .str "C"),
            ("relation_type", .str "Uses")]])]

/-- The deserialized form of c8Json. -/
def c8Output : LlmExtractionOutput :=
  { entities := [⟨none, "A", "Person", none⟩, ⟨none, "B", "Tool", none⟩],
    relations := [⟨"A", "C", "Uses", none⟩] }

/-- The batch name-to-node map built by extract_from_text for a parsed
collaborator output. -/
def batchMap (uuids : Nat → String) (now : Nat)
    (out : LlmExtractionOutput) : SMap Node :=
  (processEntities uuids now out.entities [] 0).1

/-- Whether a relation's two endpoint names both resolve in the batch
map. -/
def resolvable (m : SMap Node) (r : ExtractedRelationInfo) : Bool :=
  (mlookup m r.source_entity_name).isSome
    && (mlookup m r.target_entity_name).isSome

/-! ## Lemmas about the map and set primitives -/

theorem mlookup_minsert {α : Type} (m : SMap α) (k : String) (v : α)
    (k' : String) :
    mlookup (minsert m k v) k' = if k = k' then some v else mlookup m k' := by
  induction m with
  | nil => by_cases h : k = k' <;> simp [minsert, mlookup, h]
  | cons hd tl ih =>
    obtain ⟨k₀, v₀⟩ := hd
    by_cases h0 : k₀ = k
    · subst h0
      by_cases h1 : k₀ = k' <;> simp [minsert, mlookup, h1]
    · by_cases h1 : k₀ = k'
      · have hkk : ¬ k = k' := fun h => h0 (h1.trans h.symm)
        have h0' : ¬ k' = k := fun h => h0 (h1.trans h)
        simp [minsert, mlookup, h0', h1, hkk]
      · simp [minsert, mlookup, h0, h1, ih]

theorem mlookup_merase {α : Type} (m : SMap α) (k k' : String) :
    mlookup (merase m k) k' = if k = k' then none else mlookup m k' := by
  induction m with
  | nil => by_cases h : k = k' <;> simp [merase, mlookup, h]
  | cons hd tl ih =>
    obtain ⟨k₀, v₀⟩ := hd
    by_cases h0 : k₀ = k
    · subst h0
      have hstep : merase ((k₀, v₀) :: tl) k₀ = merase tl k₀ := by
        simp [merase]
      rw [hstep, ih]
      by_cases h1 : k₀ = k' <;> simp [mlookup, h1]
    · by_cases h1 : k₀ = k'
      · have hkk : ¬ k = k' := fun h => h0 (h1.trans h.symm)
        have h0' : ¬ k' = k := fun h => h0 (h1.trans h)
        simp [merase, mlookup, h0', h1, hkk]
      · simp [merase, mlookup, h0, h1, ih]

theorem mem_sinsert (l : List String) (x y : String) :
    y ∈ sinsert l x ↔ y ∈ l ∨ y = x := by
  unfold sinsert
  by_cases h : x ∈ l
  · simp only [if_pos h]
    constructor
    · exact Or.inl
    · rintro (hy | rfl)
      · exact hy
      · exact h
  · simp [if_neg h]

theorem mem_sremove (l : List String) (x y : String) :
    y ∈ sremove l x ↔ y ∈ l ∧ y ≠ x := by
  unfold sremove
  simp [List.mem_filter]

theorem mem_sextend (l : List String) (xs : List String) (y : String) :
    y ∈ sextend l xs ↔ y ∈ l ∨ y ∈ xs := by
  induction xs generalizing l with
  | nil => simp [sextend]
  | cons hd tl ih =>
    show y ∈ sextend (sinsert l hd) tl ↔ _
    rw [ih, mem_sinsert]
    simp only [List.mem_cons]
    tauto

theorem nodup_sinsert (l : List String) (x : String) (h : l.Nodup) :
    (sinsert l x).Nodup := by
  unfold sinsert
  by_cases hx : x ∈ l
  · simpa [if_pos hx] using h
  · simp only [if_neg hx]
    simp [List.nodup_append, h, hx]

theorem nodup_sextend (l : List String) (xs : List String) (h : l.Nodup) :
    (sextend l xs).Nodup := by
  induction xs generalizing l with
  | nil => exact h
  | cons hd tl ih => exact ih _ (nodup_sinsert _ _ h)

theorem minsert_isSome {α : Type} (m : SMap α) (k : String) (v : α)
    (k' : String) :
    (mlookup (minsert m k v) k').isSome
      ↔ (k = k' ∨ (mlookup m k').isSome) := by
  rw [mlookup_minsert]
  by_cases h : k = k' <;> simp [h]

theorem merase_isSome {α : Type} (m : SMap α) (k k' : String) :
    (mlookup (merase m k) k').isSome
      ↔ (¬ k = k' ∧ (mlookup m k').isSome) := by
  rw [mlookup_merase]
  by_cases h : k = k' <;> simp [h]

/-! ## Lemmas about the adjacency index helpers -/

theorem adjHas_adjEnsure (adj : SMap (List String)) (k k' eid : String) :
    adjHas (adjEnsure adj k) k' eid ↔ adjHas adj k' eid := by
  unfold adjEnsure adjHas
  cases hk : mlookup adj k with
  | some l => exact Iff.rfl
  | none =>
    rw [mlookup_minsert]
    by_cases h : k = k'
    · subst h; simp [hk]
    · simp [h]

theorem adjEnsure_isSome (adj : SMap (List String)) (k k' : String) :
    (mlookup (adjEnsure adj k) k').isSome
      ↔ (k = k' ∨ (mlookup adj k').isSome) := by
  unfold adjEnsure
  cases hk : mlookup adj k with
  | some l =>
    constructor
    · exact Or.inr
    · rintro (rfl | h)
      · simp [hk]
      · exact h
  | none => exact minsert_isSome adj k [] k'

theorem adjHas_adjAdd (adj : SMap (List String)) (k eid k' eid' : String) :
    adjHas (adjAdd adj k eid) k' eid'
      ↔ (adjHas adj k' eid' ∨ (k' = k ∧ eid' = eid)) := by
  unfold adjAdd adjHas
  rw [mlookup_minsert]
  by_cases h : k = k'
  · subst h
    simp [mem_sinsert]
  · have h' : ¬ k' = k := fun hh => h hh.symm
    simp [h, h']

theorem adjAdd_isSome (adj : SMap (List String)) (k eid k' : String) :
    (mlookup (adjAdd adj k eid) k').isSome
      ↔ (k = k' ∨ (mlookup adj k').isSome) := by
  unfold adjAdd
  exact minsert_isSome _ _ _ _

theorem adjHas_adjDel (adj : SMap (List String)) (k eid k' eid' : String) :
    adjHas (adjDel adj k eid) k' eid'
      ↔ (adjHas adj k' eid' ∧ ¬ (k' = k ∧ eid' = eid)) := by
  unfold adjDel adjHas
  cases hk : mlookup adj k with
  | some l =>
    rw [mlookup_minsert]
    by_cases h : k = k'
    · subst h
      simp [hk, mem_sremove]
    · have h' : ¬ k' = k := fun hh => h hh.symm
      simp [h, h']
  | none =>
    by_cases h : k' = k
    · subst h; simp [hk]
    · simp [h]

theorem adjDel_isSome (adj : SMap (List String)) (k eid k' : String) :
    (mlookup (adjDel adj k eid) k').isSome ↔ (mlookup adj k').isSome := by
  unfold adjDel
  cases hk : mlookup adj k with
  | some l =>
    rw [minsert_isSome]
    constructor
    · rintro (rfl | h)
      · simp [hk]
      · exact h
    · exact Or.inr
  | none => exact Iff.rfl

/-! ## The adjacency invariant -/

theorem invStrong_implies_inv (s : KBState) (h : InvStrong s) : Inv s := by
  constructor
  · intro k e hk
    have hid := h.wf_edges k e hk
    subst hid
    refine ⟨h.out_complete _ e hk, h.in_complete _ e hk, ?_, ?_⟩
    · intro k' hne hadj
      obtain ⟨e', he', hsrc⟩ := h.out_sound k' e.id hadj
      rw [hk] at he'
      cases he'
      exact hne hsrc.symm
    · intro k' hne hadj
      obtain ⟨e', he', htgt⟩ := h.in_sound k' e.id hadj
      rw [hk] at he'
      cases he'
      exact hne htgt.symm
  · intro nid hnid
    exact ⟨(h.out_keys nid).mpr hnid, (h.in_keys nid).mpr hnid⟩

theorem invStrong_empty : InvStrong KBState.empty := by
  refine ⟨?_, ?_, ?_, ?_, ?_, ?_, ?_, ?_⟩ <;>
    simp [KBState.empty, mlookup, adjHas]

/-! ## Invariant preservation -/

theorem invStrong_add_node (s : KBState) (n : Node) (h : InvStrong s) :
    InvStrong (add_node s n).2 := by
  by_cases hc : (mlookup s.nodes n.id).isSome = true
  · simpa [add_node, hc] using h
  · refine ⟨?_, ?_, ?_, ?_, ?_, ?_, ?_, ?_⟩ <;>
      simp only [add_node, hc, if_false, Bool.false_eq_true]
    · intro k nn hk
      rw [mlookup_minsert] at hk
      by_cases hkk : n.id = k
      · rw [if_pos hkk] at hk
        cases hk
        exact hkk
      · rw [if_neg hkk] at hk
        exact h.wf_nodes k nn hk
    · exact h.wf_edges
    · intro k e hk
      rw [adjHas_adjEnsure]
      exact h.out_complete k e hk
    · intro k e hk
      rw [adjHas_adjEnsure]
      exact h.in_complete k e hk
    · intro k eid hadj
      rw [adjHas_adjEnsure] at hadj
      exact h.out_sound k eid hadj
    · intro k eid hadj
      rw [adjHas_adjEnsure] at hadj
      exact h.in_sound k eid hadj
    · intro k
      rw [adjEnsure_isSome, minsert_isSome, h.out_keys]
    · intro k
      rw [adjEnsure_isSome, minsert_isSome, h.in_keys]

theorem invStrong_add_edge (s : KBState) (e : Edge) (h : InvStrong s) :
    InvStrong (add_edge s e).2 := by
  by_cases hc : (mlookup s.edges e.id).isSome = true
  · simpa [add_edge, hc] using h
  by_cases hs' : (mlookup s.nodes e.source_node_id).isNone = true
  · simpa [add_edge, hc, hs'] using h
  by_cases ht : (mlookup s.nodes e.target_node_id).isNone = true
  · simpa [add_edge, hc, hs', ht] using h
  have hfresh : mlookup s.edges e.id = none := by
    cases hm : mlookup s.edges e.id with
    | none => rfl
    | some _ => exact absurd (by simp [hm]) hc
  have hsrcSome : (mlookup s.nodes e.source_node_id).isSome = true := by
    cases hm : mlookup s.nodes e.source_node_id with
    | none => exact absurd (by simp [hm]) hs'
    | some _ => simp
  have htgtSome : (mlookup s.nodes e.target_node_id).isSome = true := by
    cases hm : mlookup s.nodes e.target_node_id with
    | none => exact absurd (by simp [hm]) ht
    | some _ => simp
  refine ⟨?_, ?_, ?_, ?_, ?_, ?_, ?_, ?_⟩ <;>
    simp only [add_edge, hc, hs', ht, if_false, Bool.false_eq_true, ite_false]
  · exact h.wf_nodes
  · intro k e' hk
    rw [mlookup_minsert] at hk
    by_cases hkk : e.id = k
    · rw [if_pos hkk] at hk
      cases hk
      exact hkk
    · rw [if_neg hkk] at hk
      exact h.wf_edges k e' hk
  · intro k e' hk
    rw [mlookup_minsert] at hk
    rw [adjHas_adjAdd]
    by_cases hkk : e.id = k
    · rw [if_pos hkk] at hk
      cases hk
      exact Or.inr ⟨rfl, hkk.symm⟩
    · rw [if_neg hkk] at hk
      exact Or.inl (h.out_complete k e' hk)
  · intro k e' hk
    rw [mlookup_minsert] at hk
    rw [adjHas_adjAdd]
    by_cases hkk : e.id = k
    · rw [if_pos hkk] at hk
      cases hk
      exact Or.inr ⟨rfl, hkk.symm⟩
    · rw [if_neg hkk] at hk
      exact Or.inl (h.in_complete k e' hk)
  · intro k eid hadj
    rw [adjHas_adjAdd] at hadj
    rcases hadj with hold | ⟨hk, heid⟩
    · obtain ⟨e'', he'', hsrc⟩ := h.out_sound k eid hold
      refine ⟨e'', ?_, hsrc⟩
      rw [mlookup_minsert]
      have hne : ¬ e.id = eid := by
        intro hh
        rw [hh] at hfresh
        rw [hfresh] at he''
        cases he''
      rw [if_neg hne]
      exact he''
    · subst hk
      subst heid
      refine ⟨e, ?_, rfl⟩
      rw [mlookup_minsert, if_pos rfl]
  · intro k eid hadj
    rw [adjHas_adjAdd] at hadj
    rcases hadj with hold | ⟨hk, heid⟩
    · obtain ⟨e'', he'', htgt⟩ := h.in_sound k eid hold
      refine ⟨e'', ?_, htgt⟩
      rw [mlookup_minsert]
      have hne : ¬ e.id = eid := by
        intro hh
        rw [hh] at hfresh
        rw [hfresh] at he''
        cases he''
      rw [if_neg hne]
      exact he''
    · subst hk
      subst heid
      refine ⟨e, ?_, rfl⟩
      rw [mlookup_minsert, if_pos rfl]
  · intro k
    rw [adjAdd_isSome]
    constructor
    · rintro (hk | hk)
      · rw [← hk]
        exact hsrcSome
      · exact (h.out_keys k).mp hk
    · intro hk
      exact Or.inr ((h.out_keys k).mpr hk)
  · intro k
    rw [adjAdd_isSome]
    constructor
    · rintro (hk | hk)
      · rw [← hk]
        exact htgtSome
      · exact (h.in_keys k).mp hk
    · intro hk
      exact Or.inr ((h.in_keys k).mpr hk)

theorem invStrong_delete_edge (s : KBState) (eid : String) (h : InvStrong s) :
    InvStrong (delete_edge s eid).2 := by
  cases hm : mlookup s.edges eid with
  | none => simpa [delete_edge, hm] using h
  | some e =>
    refine ⟨?_, ?_, ?_, ?_, ?_, ?_, ?_, ?_⟩ <;>
      simp only [delete_edge, hm]
    · exact h.wf_nodes
    · intro k e' hk
      rw [mlookup_merase] at hk
      by_cases heq : eid = k
      · rw [if_pos heq] at hk
        cases hk
      · rw [if_neg heq] at hk
        exact h.wf_edges k e' hk
    · intro k e' hk
      rw [mlookup_merase] at hk
      by_cases heq : eid = k
      · rw [if_pos heq] at hk
        cases hk
      · rw [if_neg heq] at hk
        rw [adjHas_adjDel]
        refine ⟨h.out_complete k e' hk, ?_⟩
        rintro ⟨_, hkeid⟩
        exact heq hkeid.symm
    · intro k e' hk
      rw [mlookup_merase] at hk
      by_cases heq : eid = k
      · rw [if_pos heq] at hk
        cases hk
      · rw [if_neg heq] at hk
        rw [adjHas_adjDel]
        refine ⟨h.in_complete k e' hk, ?_⟩
        rintro ⟨_, hkeid⟩
        exact heq hkeid.symm
    · intro k i hadj
      rw [adjHas_adjDel] at hadj
      obtain ⟨hold, hnot⟩ := hadj
      obtain ⟨e'', he'', hsrc⟩ := h.out_sound k i hold
      have hne : ¬ eid = i := by
        intro hh
        rw [← hh] at he''
        rw [hm] at he''
        cases he''
        exact hnot ⟨hsrc.symm, hh.symm⟩
      refine ⟨e'', ?_, hsrc⟩
      rw [mlookup_merase, if_neg hne]
      exact he''
    · intro k i hadj
      rw [adjHas_adjDel] at hadj
      obtain ⟨hold, hnot⟩ := hadj
      obtain ⟨e'', he'', htgt⟩ := h.in_sound k i hold
      have hne : ¬ eid = i := by
        intro hh
        rw [← hh] at he''
        rw [hm] at he''
        cases he''
        exact hnot ⟨htgt.symm, hh.symm⟩
      refine ⟨e'', ?_, htgt⟩
      rw [mlookup_merase, if_neg hne]
      exact he''
    · intro k
      rw [adjDel_isSome]
      exact h.out_keys k
    · intro k
      rw [adjDel_isSome]
      exact h.in_keys k

theorem invStrong_update_node (s : KBState) (nid : String) (patch : Json)
    (now : Nat) (h : InvStrong s) :
    InvStrong (update_node_properties s nid patch now).2 := by
  cases hm : mlookup s.nodes nid with
  | none =>
    simpa [update_node_properties, hm] using h
  | some node =>
    cases patch with
    | obj pm =>
      cases hp : node.properties with
      | obj cur =>
        have hid : node.id = nid := h.wf_nodes nid node hm
        refine ⟨?_, ?_, ?_, ?_, ?_, ?_, ?_, ?_⟩ <;>
          simp only [update_node_properties, hm, hp]
        · intro k nn hk
          rw [mlookup_minsert] at hk
          by_cases hkk : nid = k
          · rw [if_pos hkk] at hk
            cases hk
            rw [← hkk]
            exact hid
          · rw [if_neg hkk] at hk
            exact h.wf_nodes k nn hk
        · exact h.wf_edges
        · exact h.out_complete
        · exact h.in_complete
        · exact h.out_sound
        · exact h.in_sound
        · intro k
          rw [minsert_isSome, h.out_keys]
          constructor
          · exact Or.inr
          · rintro (rfl | hk)
            · simp [hm]
            · exact hk
        · intro k
          rw [minsert_isSome, h.in_keys]
          constructor
          · exact Or.inr
          · rintro (rfl | hk)
            · simp [hm]
            · exact hk
      | null => simpa [update_node_properties, hm, hp] using h
      | bool b => simpa [update_node_properties, hm, hp] using h
      | num n => simpa [update_node_properties, hm, hp] using h
      | str t => simpa [update_node_properties, hm, hp] using h
      | arr xs => simpa [update_node_properties, hm, hp] using h
    | null => simpa [update_node_properties, hm] using h
    | bool b => simpa [update_node_properties, hm] using h
    | num n => simpa [update_node_properties, hm] using h
    | str t => simpa [update_node_properties, hm] using h
    | arr xs => simpa [update_node_properties, hm] using h

theorem invStrong_update_edge (s : KBState) (eid : String) (patch : Json)
    (now : Nat) (h : InvStrong s) :
    InvStrong (update_edge_properties s eid patch now).2 := by
  cases hm : mlookup s.edges eid with
  | none =>
    simpa [update_edge_properties, hm] using h
  | some edge =>
    cases patch with
    | obj pm =>
      cases hp : edge.properties with
      | obj cur =>
        have hid : edge.id = eid := h.wf_edges eid edge hm
        refine ⟨?_, ?_, ?_, ?_, ?_, ?_, ?_, ?_⟩ <;>
          simp only [update_edge_properties, hm, hp]
        · exact h.wf_nodes
        · intro k e' hk
          rw [mlookup_minsert] at hk
          by_cases hkk : eid = k
          · rw [if_pos hkk] at hk
            cases hk
            rw [← hkk]
            exact hid
          · rw [if_neg hkk] at hk
            exact h.wf_edges k e' hk
        · intro k e' hk
          rw [mlookup_minsert] at hk
          by_cases hkk : eid = k
          · rw [if_pos hkk] at hk
            cases hk
            exact h.out_complete k edge (hkk ▸ hm)
          · rw [if_neg hkk] at hk
            exact h.out_complete k e' hk
        · intro k e' hk
          rw [mlookup_minsert] at hk
          by_cases hkk : eid = k
          · rw [if_pos hkk] at hk
            cases hk
            exact h.in_complete k edge (hkk ▸ hm)
          · rw [if_neg hkk] at hk
            exact h.in_complete k e' hk
        · intro k i hadj
          obtain ⟨e'', he'', hsrc⟩ := h.out_sound k i hadj
          rw [mlookup_minsert]
          by_cases hkk : eid = i
          · rw [← hkk] at he''
            rw [hm] at he''
            cases he''
            exact ⟨_, if_pos hkk, hsrc⟩
          · exact ⟨e'', by rw [if_neg hkk]; exact he'', hsrc⟩
        · intro k i hadj
          obtain ⟨e'', he'', htgt⟩ := h.in_sound k i hadj
          rw [mlookup_minsert]
          by_cases hkk : eid = i
          · rw [← hkk] at he''
            rw [hm] at he''
            cases he''
            exact ⟨_, if_pos hkk, htgt⟩
          · exact ⟨e'', by rw [if_neg hkk]; exact he'', htgt⟩
        · exact h.out_keys
        · exact h.in_keys
      | null => simpa [update_edge_properties, hm, hp] using h
      | bool b => simpa [update_edge_properties, hm, hp] using h
      | num n => simpa [update_edge_properties, hm, hp] using h
      | str t => simpa [update_edge_properties, hm, hp] using h
      | arr xs => simpa [update_edge_properties, hm, hp] using h
    | null => simpa [update_edge_properties, hm] using h
    | bool b => simpa [update_edge_properties, hm] using h
    | num n => simpa [update_edge_properties, hm] using h
    | str t => simpa [update_edge_properties, hm] using h
    | arr xs => simpa [update_edge_properties, hm] using h

/-! ## Lemmas about the delete_node cascade loop -/

theorem adjHas_merase (adj : SMap (List String)) (k k' i : String) :
    adjHas (merase adj k) k' i ↔ (¬ k = k' ∧ adjHas adj k' i) := by
  unfold adjHas
  rw [mlookup_merase]
  by_cases h : k = k' <;> simp [h]

theorem mlookup_merase_of_none {α : Type} (m : SMap α) (k : String)
    (h : mlookup m k = none) (k' : String) :
    mlookup (merase m k) k' = mlookup m k' := by
  rw [mlookup_merase]
  by_cases hk : k = k'
  · rw [if_pos hk, ← hk, h]
  · rw [if_neg hk]

theorem deleteEdgesLoop_nodes (l : List String) (s : KBState) :
    (deleteEdgesLoop l s).2.nodes = s.nodes := by
  induction l generalizing s with
  | nil => rfl
  | cons hd tl ih =>
    simp only [deleteEdgesLoop]
    cases hm : mlookup s.edges hd with
    | some e =>
      simp only [delete_edge, hm]
      exact ih _
    | none =>
      simp only [delete_edge, hm]

theorem deleteEdgesLoop_edges_mono (l : List String) (s : KBState)
    (i : String) (e : Edge)
    (h : mlookup (deleteEdgesLoop l s).2.edges i = some e) :
    mlookup s.edges i = some e := by
  induction l generalizing s with
  | nil => exact h
  | cons hd tl ih =>
    simp only [deleteEdgesLoop] at h
    cases hm : mlookup s.edges hd with
    | some e' =>
      simp only [delete_edge, hm] at h
      have h' := ih _ h
      rw [mlookup_merase] at h'
      by_cases hk : hd = i
      · rw [if_pos hk] at h'
        cases h'
      · rw [if_neg hk] at h'
        exact h'
    | none =>
      simp only [delete_edge, hm] at h
      exact h

theorem deleteEdgesLoop_edges_none (l : List String) (s : KBState)
    (i : String) (h : mlookup s.edges i = none) :
    mlookup (deleteEdgesLoop l s).2.edges i = none := by
  cases hm : mlookup (deleteEdgesLoop l s).2.edges i with
  | none => rfl
  | some e =>
    have := deleteEdgesLoop_edges_mono l s i e hm
    rw [h] at this
    cases this

theorem deleteEdgesLoop_out_mono (l : List String) (s : KBState)
    (k i : String)
    (h : adjHas (deleteEdgesLoop l s).2.adj_outgoing k i) :
    adjHas s.adj_outgoing k i := by
  induction l generalizing s with
  | nil => exact h
  | cons hd tl ih =>
    simp only [deleteEdgesLoop] at h
    cases hm : mlookup s.edges hd with
    | some e' =>
      simp only [delete_edge, hm] at h
      have h' := ih _ h
      rw [adjHas_adjDel] at h'
      exact h'.1
    | none =>
      simp only [delete_edge, hm] at h
      exact h

theorem deleteEdgesLoop_in_mono (l : List String) (s : KBState)
    (k i : String)
    (h : adjHas (deleteEdgesLoop l s).2.adj_incoming k i) :
    adjHas s.adj_incoming k i := by
  induction l generalizing s with
  | nil => exact h
  | cons hd tl ih =>
    simp only [deleteEdgesLoop] at h
    cases hm : mlookup s.edges hd with
    | some e' =>
      simp only [delete_edge, hm] at h
      have h' := ih _ h
      rw [adjHas_adjDel] at h'
      exact h'.1
    | none =>
      simp only [delete_edge, hm] at h
      exact h

theorem invStrong_deleteEdgesLoop (l : List String) (s : KBState)
    (h : InvStrong s) : InvStrong (deleteEdgesLoop l s).2 := by
  induction l generalizing s with
  | nil => exact h
  | cons hd tl ih =>
    simp only [deleteEdgesLoop]
    cases hm : mlookup s.edges hd with
    | some e =>
      simp only [delete_edge, hm]
      apply ih
      have h₁ := invStrong_delete_edge s hd h
      simpa [delete_edge, hm] using h₁
    | none =>
      simp only [delete_edge, hm]
      exact h

theorem deleteEdgesLoop_ok (l : List String) (s : KBState)
    (hnd : l.Nodup)
    (hall : ∀ i ∈ l, (mlookup s.edges i).isSome = true) :
    (deleteEdgesLoop l s).1 = .ok () ∧
      ∀ i ∈ l, mlookup (deleteEdgesLoop l s).2.edges i = none := by
  induction l generalizing s with
  | nil => exact ⟨rfl, by simp⟩
  | cons hd tl ih =>
    have hhd := hall hd (List.mem_cons_self hd tl)
    cases hm : mlookup s.edges hd with
    | none => rw [hm] at hhd; cases hhd
    | some e =>
      simp only [deleteEdgesLoop, delete_edge, hm]
      have hndtl : tl.Nodup := (List.nodup_cons.mp hnd).2
      have hhdtl : hd ∉ tl := (List.nodup_cons.mp hnd).1
      have halltl : ∀ i ∈ tl,
          (mlookup (merase s.edges hd) i).isSome = true := by
        intro i hi
        rw [mlookup_merase]
        have hne : ¬ hd = i := fun hh => hhdtl (hh ▸ hi)
        rw [if_neg hne]
        exact hall i (List.mem_cons_of_mem hd hi)
      obtain ⟨hok, hgone⟩ :=
        ih (KBState.mk s.nodes (merase s.edges hd)
              (adjDel s.adj_outgoing e.source_node_id hd)
              (adjDel s.adj_incoming e.target_node_id hd))
          hndtl (fun i hi => halltl i hi)
      refine ⟨hok, ?_⟩
      intro i hi
      rcases List.mem_cons.mp hi with rfl | hi'
      · apply deleteEdgesLoop_edges_none
        rw [mlookup_merase, if_pos rfl]
      · exact hgone i hi'

theorem deleteEdgesLoop_err (l : List String) (s : KBState)
    (hmiss : ∃ i ∈ l, mlookup s.edges i = none) :
    ∃ j, (deleteEdgesLoop l s).1
      = .error ("Edge with id " ++ j ++ " not found for deletion") := by
  induction l generalizing s with
  | nil =>
    obtain ⟨i, hi, _⟩ := hmiss
    cases hi
  | cons hd tl ih =>
    obtain ⟨i, hi, hnone⟩ := hmiss
    cases hm : mlookup s.edges hd with
    | none =>
      refine ⟨hd, ?_⟩
      simp only [deleteEdgesLoop, delete_edge, hm]
    | some e =>
      simp only [deleteEdgesLoop, delete_edge, hm]
      apply ih
      have hne : i ≠ hd := by
        intro hh
        rw [hh, hm] at hnone
        cases hnone
      rcases List.mem_cons.mp hi with rfl | hi'
      · exact absurd rfl hne
      · refine ⟨i, hi', ?_⟩
        rw [mlookup_merase]
        have : ¬ hd = i := fun hh => hne hh.symm
        rw [if_neg this]
        exact hnone

theorem edgesToRemove_spec (s : KBState) (nid i : String) :
    i ∈ edgesToRemove s nid
      ↔ (adjHas s.adj_outgoing nid i ∨ adjHas s.adj_incoming nid i) := by
  unfold edgesToRemove adjHas
  rw [mem_sextend, mem_sextend]
  simp

theorem nodup_edgesToRemove (s : KBState) (nid : String) :
    (edgesToRemove s nid).Nodup :=
  nodup_sextend _ _ (nodup_sextend _ _ List.nodup_nil)

theorem invStrong_delete_node (s : KBState) (nid : String) (h : InvStrong s) :
    InvStrong (delete_node s nid).2 := by
  unfold delete_node
  cases hloop : deleteEdgesLoop (edgesToRemove s nid) s with
  | mk r s₂ =>
  have h₂ : InvStrong s₂ := by
    have hh := invStrong_deleteEdgesLoop (edgesToRemove s nid) s h
    rw [hloop] at hh
    exact hh
  cases r with
  | error e => exact h₂
  | ok u =>
    dsimp only
    cases hn : mlookup s₂.nodes nid with
    | none =>
      dsimp only
      refine ⟨?_, h₂.wf_edges, h₂.out_complete, h₂.in_complete,
              h₂.out_sound, h₂.in_sound, ?_, ?_⟩
      · intro k n hk
        rw [mlookup_merase_of_none s₂.nodes nid hn] at hk
        exact h₂.wf_nodes k n hk
      · intro k
        rw [mlookup_merase_of_none s₂.nodes nid hn]
        exact h₂.out_keys k
      · intro k
        rw [mlookup_merase_of_none s₂.nodes nid hn]
        exact h₂.in_keys k
    | some node =>
      dsimp only
      have hnodes₂ : s₂.nodes = s.nodes := by
        have hh := deleteEdgesLoop_nodes (edgesToRemove s nid) s
        rw [hloop] at hh
        exact hh
      have hall : ∀ i ∈ edgesToRemove s nid,
          (mlookup s.edges i).isSome = true := by
        intro i hi
        rcases (edgesToRemove_spec s nid i).mp hi with hadj | hadj
        · obtain ⟨e', he', _⟩ := h.out_sound nid i hadj
          simp [he']
        · obtain ⟨e', he', _⟩ := h.in_sound nid i hadj
          simp [he']
      obtain ⟨hok, hgone⟩ :=
        deleteEdgesLoop_ok (edgesToRemove s nid) s
          (nodup_edgesToRemove s nid) hall
      have hgone₂ : ∀ i ∈ edgesToRemove s nid,
          mlookup s₂.edges i = none := by
        intro i hi
        have hh := hgone i hi
        rw [hloop] at hh
        exact hh
      have hnotouch : ∀ k e', mlookup s₂.edges k = some e' →
          e'.source_node_id ≠ nid ∧ e'.target_node_id ≠ nid := by
        intro k e' hk
        constructor
        · intro hsrc
          have hadj₂ : adjHas s₂.adj_outgoing nid k := by
            have hh := h₂.out_complete k e' hk
            rw [hsrc] at hh
            exact hh
          have hadj : adjHas s.adj_outgoing nid k := by
            have hh := deleteEdgesLoop_out_mono (edgesToRemove s nid) s nid k
            rw [hloop] at hh
            exact hh hadj₂
          have hmem : k ∈ edgesToRemove s nid :=
            (edgesToRemove_spec s nid k).mpr (Or.inl hadj)
          have hnone := hgone₂ k hmem
          rw [hk] at hnone
          cases hnone
        · intro htgt
          have hadj₂ : adjHas s₂.adj_incoming nid k := by
            have hh := h₂.in_complete k e' hk
            rw [htgt] at hh
            exact hh
          have hadj : adjHas s.adj_incoming nid k := by
            have hh := deleteEdgesLoop_in_mono (edgesToRemove s nid) s nid k
            rw [hloop] at hh
            exact hh hadj₂
          have hmem : k ∈ edgesToRemove s nid :=
            (edgesToRemove_spec s nid k).mpr (Or.inr hadj)
          have hnone := hgone₂ k hmem
          rw [hk] at hnone
          cases hnone
      refine ⟨?_, h₂.wf_edges, ?_, ?_, ?_, ?_, ?_, ?_⟩
      · intro k n hk
        rw [mlookup_merase] at hk
        by_cases hkk : nid = k
        · rw [if_pos hkk] at hk
          cases hk
        · rw [if_neg hkk] at hk
          exact h₂.wf_nodes k n hk
      · intro k e' hk
        rw [adjHas_merase]
        exact ⟨fun hh => (hnotouch k e' hk).1 hh.symm, h₂.out_complete k e' hk⟩
      · intro k e' hk
        rw [adjHas_merase]
        exact ⟨fun hh => (hnotouch k e' hk).2 hh.symm, h₂.in_complete k e' hk⟩
      · intro k i hadj
        rw [adjHas_merase] at hadj
        exact h₂.out_sound k i hadj.2
      · intro k i hadj
        rw [adjHas_merase] at hadj
        exact h₂.in_sound k i hadj.2
      · intro k
        rw [merase_isSome, merase_isSome, h₂.out_keys]
      · intro k
        rw [merase_isSome, merase_isSome, h₂.in_keys]

theorem reachable_invStrong (s : KBState) (h : Reachable s) : InvStrong s := by
  induction h with
  | init => exact invStrong_empty
  | step_add_node s n _ ih => exact invStrong_add_node s n ih
  | step_add_edge s e _ ih => exact invStrong_add_edge s e ih
  | step_update_node s nid p now _ ih => exact invStrong_update_node s nid p now ih
  | step_update_edge s eid p now _ ih => exact invStrong_update_edge s eid p now ih
  | step_delete_edge s eid _ ih => exact invStrong_delete_edge s eid ih
  | step_delete_node s nid _ ih => exact invStrong_delete_node s nid ih

/-- Full characterization of a successful delete_node on a state satisfying
the strengthened invariant: it succeeds, the node is gone, every edge that
touched the node is gone from the edge table, and no remaining edge touches
the node. -/
theorem delete_node_ok_spec (s : KBState) (nid : String) (h : InvStrong s)
    (hmem : (mlookup s.nodes nid).isSome = true) :
    (delete_node s nid).1 = .ok () ∧
    mlookup (delete_node s nid).2.nodes nid = none ∧
    (∀ k e, mlookup s.edges k = some e →
      (e.source_node_id = nid ∨ e.target_node_id = nid) →
      mlookup (delete_node s nid).2.edges k = none) ∧
    (∀ k e, mlookup (delete_node s nid).2.edges k = some e →
      e.source_node_id ≠ nid ∧ e.target_node_id ≠ nid) := by
  have hall : ∀ i ∈ edgesToRemove s nid,
      (mlookup s.edges i).isSome = true := by
    intro i hi
    rcases (edgesToRemove_spec s nid i).mp hi with hadj | hadj
    · obtain ⟨e', he', _⟩ := h.out_sound nid i hadj
      simp [he']
    · obtain ⟨e', he', _⟩ := h.in_sound nid i hadj
      simp [he']
  obtain ⟨hok, hgone⟩ :=
    deleteEdgesLoop_ok (edgesToRemove s nid) s (nodup_edgesToRemove s nid) hall
  unfold delete_node
  cases hloop : deleteEdgesLoop (edgesToRemove s nid) s with
  | mk r s₂ =>
  have h₂ : InvStrong s₂ := by
    have hh := invStrong_deleteEdgesLoop (edgesToRemove s nid) s h
    rw [hloop] at hh
    exact hh
  have hnodes₂ : s₂.nodes = s.nodes := by
    have hh := deleteEdgesLoop_nodes (edgesToRemove s nid) s
    rw [hloop] at hh
    exact hh
  have hgone₂ : ∀ i ∈ edgesToRemove s nid, mlookup s₂.edges i = none := by
    intro i hi
    have hh := hgone i hi
    rw [hloop] at hh
    exact hh
  rw [hloop] at hok
  cases r with
  | error msg => exact absurd hok (by simp)
  | ok u =>
    dsimp only
    cases hn : mlookup s₂.nodes nid with
    | none =>
      rw [hnodes₂] at hn
      rw [hn] at hmem
      cases hmem
    | some node =>
      dsimp only
      have hnotouch : ∀ k e', mlookup s₂.edges k = some e' →
          e'.source_node_id ≠ nid ∧ e'.target_node_id ≠ nid := by
        intro k e' hk
        constructor
        · intro hsrc
          have hadj₂ : adjHas s₂.adj_outgoing nid k := by
            have hh := h₂.out_complete k e' hk
            rw [hsrc] at hh
            exact hh
          have hadj : adjHas s.adj_outgoing nid k := by
            have hh := deleteEdgesLoop_out_mono (edgesToRemove s nid) s nid k
            rw [hloop] at hh
            exact hh hadj₂
          have hnone := hgone₂ k
            ((edgesToRemove_spec s nid k).mpr (Or.inl hadj))
          rw [hk] at hnone
          cases hnone
        · intro htgt
          have hadj₂ : adjHas s₂.adj_incoming nid k := by
            have hh := h₂.in_complete k e' hk
            rw [htgt] at hh
            exact hh
          have hadj : adjHas s.adj_incoming nid k := by
            have hh := deleteEdgesLoop_in_mono (edgesToRemove s nid) s nid k
            rw [hloop] at hh
            exact hh hadj₂
          have hnone := hgone₂ k
            ((edgesToRemove_spec s nid k).mpr (Or.inr hadj))
          rw [hk] at hnone
          cases hnone
      refine ⟨rfl, ?_, ?_, hnotouch⟩
      · rw [mlookup_merase, if_pos rfl]
      · intro k e hk htouch
        rcases htouch with hsrc | htgt
        · have hadj : adjHas s.adj_outgoing nid k := by
            have hh := h.out_complete k e hk
            rw [hsrc] at hh
            exact hh
          exact hgone₂ k ((edgesToRemove_spec s nid k).mpr (Or.inl hadj))
        · have hadj : adjHas s.adj_incoming nid k := by
            have hh := h.in_complete k e hk
            rw [htgt] at hh
            exact hh
          exact hgone₂ k ((edgesToRemove_spec s nid k).mpr (Or.inr hadj))

/-- A successful update_node_properties on an object patch and
object-shaped stored properties stores the shallow merge. -/
theorem update_node_props_ok (s : KBState) (nid : String) (node : Node)
    (cur pm : SMap Json) (now : Nat)
    (hnode : mlookup s.nodes nid = some node)
    (hprops : node.properties = .obj cur) :
    (update_node_properties s nid (.obj pm) now).1 = .ok () ∧
    mlookup (update_node_properties s nid (.obj pm) now).2.nodes nid
      = some { node with properties := .obj (mergeFold cur pm),
                         updated_at := now } := by
  simp only [update_node_properties, hnode, hprops]
  exact ⟨trivial, by rw [mlookup_minsert, if_pos rfl]⟩

theorem mlookup_not_keys {α : Type} (m : SMap α) (k : String)
    (h : k ∉ m.map Prod.fst) : mlookup m k = none := by
  induction m with
  | nil => rfl
  | cons hd tl ih =>
    obtain ⟨k₀, v₀⟩ := hd
    simp only [List.map_cons, List.mem_cons] at h
    push_neg at h
    show (if k₀ = k then some v₀ else mlookup tl k) = none
    rw [if_neg (fun hh => h.1 hh.symm)]
    exact ih h.2

theorem mlookup_mergeFold_of_none (cur pm : SMap Json) (k : String)
    (h : mlookup pm k = none) :
    mlookup (mergeFold cur pm) k = mlookup cur k := by
  induction pm generalizing cur with
  | nil => rfl
  | cons hd tl ih =>
    obtain ⟨k₀, v₀⟩ := hd
    simp only [mlookup] at h
    by_cases hk : k₀ = k
    · rw [if_pos hk] at h
      cases h
    · rw [if_neg hk] at h
      show mlookup (mergeFold (minsert cur k₀ v₀) tl) k = mlookup cur k
      rw [ih _ h, mlookup_minsert, if_neg hk]

theorem mlookup_mergeFold_of_some (cur pm : SMap Json) (k : String)
    (v : Json) (hnd : (pm.map Prod.fst).Nodup)
    (h : mlookup pm k = some v) :
    mlookup (mergeFold cur pm) k = some v := by
  induction pm generalizing cur with
  | nil => cases h
  | cons hd tl ih =>
    obtain ⟨k₀, v₀⟩ := hd
    simp only [List.map_cons, List.nodup_cons] at hnd
    simp only [mlookup] at h
    by_cases hk : k₀ = k
    · rw [if_pos hk] at h
      cases h
      show mlookup (mergeFold (minsert cur k₀ v) tl) k = some v
      have htl : mlookup tl k = none := by
        apply mlookup_not_keys
        rw [← hk]
        exact hnd.1
      rw [mlookup_mergeFold_of_none _ _ _ htl, mlookup_minsert, if_pos hk]
    · rw [if_neg hk] at h
      show mlookup (mergeFold (minsert cur k₀ v₀) tl) k = some v
      exact ih _ hnd.2 h

/-- The number of edges produced by the relation loop is the number of
relations whose endpoints both resolve in the batch map. -/
theorem processRelations_length (uuids : Nat → String) (now : Nat)
    (rels : List ExtractedRelationInfo) (m : SMap Node) (c : Nat) :
    (processRelations uuids now rels m c).1.length
      = (rels.filter (resolvable m)).length := by
  induction rels generalizing c with
  | nil => rfl
  | cons r rest ih =>
    simp only [processRelations]
    cases hs : mlookup m r.source_entity_name with
    | none =>
      have hres : resolvable m r = false := by
        simp [resolvable, hs]
      simp [List.filter_cons, hres, ih]
    | some sn =>
      cases ht : mlookup m r.target_entity_name with
      | none =>
        have hres : resolvable m r = false := by
          simp [resolvable, hs, ht]
        simp [List.filter_cons, hres, ih]
      | some tn =>
        have hres : resolvable m r = true := by
          simp [resolvable, hs, ht]
        simp [List.filter_cons, hres, ih]

theorem filter_length_lt {α : Type} (l : List α) (p : α → Bool) (x : α)
    (hx : x ∈ l) (hpx : p x = false) :
    (l.filter p).length < l.length := by
  induction l with
  | nil => cases hx
  | cons hd tl ih =>
    rcases List.mem_cons.mp hx with rfl | hx'
    · rw [List.filter_cons, hpx]
      exact Nat.lt_succ_of_le (List.length_filter_le p tl)
    · rw [List.filter_cons]
      cases hp : p hd
      · exact Nat.lt_succ_of_lt (ih hx')
      · simpa using Nat.succ_lt_succ (ih hx')

/-! ## Claim theorems -/

/-- C1: for every reachable store state — the empty store and everything
obtainable from it through the public mutating operations add_node,
add_edge, update_node_properties, update_edge_properties, delete_edge and
delete_node, whether they succeed or fail — the adjacency invariant holds:
every edge in the edge table is indexed under its source in the outgoing
index and under its target in the incoming index and nowhere else, and
every node in the node table has entries in both indices. -/
theorem C1_adjacency_invariant (s : KBState) (h : Reachable s) : Inv s :=
  invStrong_implies_inv s (reachable_invStrong s h)

/-- C1 witness: the invariant at the concrete reachable store storeBoth. -/
theorem C1_witness : Inv storeBoth :=
  C1_adjacency_invariant storeBoth
    (Reachable.step_add_edge _ edgeBA
      (Reachable.step_add_edge _ edgeAB
        (Reachable.step_add_node _ nodeB
          (Reachable.step_add_node _ nodeA Reachable.init))))

/-- C3: on a state satisfying the store's invariant, deleting a node that
is present succeeds, removes the node from the node table, removes from
the edge table every edge whose source or target is that node, and
afterwards no get_edges_by_node_id query with direction "both" on any node
returns any of the removed edges. -/
theorem C3_delete_node_cascade (s : KBState) (nid : String)
    (h : InvStrong s) (hmem : (mlookup s.nodes nid).isSome = true) :
    (delete_node s nid).1 = .ok () ∧
    mlookup (delete_node s nid).2.nodes nid = none ∧
    (∀ k e, mlookup s.edges k = some e →
      (e.source_node_id = nid ∨ e.target_node_id = nid) →
      mlookup (delete_node s nid).2.edges k = none) ∧
    (∀ n' es, get_edges_by_node_id (delete_node s nid).2 n' (some "both")
        = .ok es →
      ∀ k e, mlookup s.edges k = some e →
        (e.source_node_id = nid ∨ e.target_node_id = nid) → e ∉ es) := by
  obtain ⟨hok, hnode, hremoved, hnotouch⟩ := delete_node_ok_spec s nid h hmem
  refine ⟨hok, hnode, hremoved, ?_⟩
  intro n' es hes k e hk htouch hmemes
  simp only [get_edges_by_node_id] at hes
  injection hes with hes'
  subst hes'
  rw [List.mem_filterMap] at hmemes
  obtain ⟨i, _, hi⟩ := hmemes
  have hfree := hnotouch i e hi
  rcases htouch with hsrc | htgt
  · exact hfree.1 hsrc
  · exact hfree.2 htgt

/-- C3 witness: deleting node "a" from the concrete store storeAB. -/
theorem C3_witness :
    (delete_node storeAB "a").1 = .ok () ∧
    mlookup (delete_node storeAB "a").2.nodes "a" = none ∧
    (∀ k e, mlookup storeAB.edges k = some e →
      (e.source_node_id = "a" ∨ e.target_node_id = "a") →
      mlookup (delete_node storeAB "a").2.edges k = none) ∧
    (∀ n' es, get_edges_by_node_id (delete_node storeAB "a").2 n'
        (some "both") = .ok es →
      ∀ k e, mlookup storeAB.edges k = some e →
        (e.source_node_id = "a" ∨ e.target_node_id = "a") → e ∉ es) :=
  C3_delete_node_cascade storeAB "a"
    (reachable_invStrong storeAB
      (Reachable.step_add_edge _ edgeAB
        (Reachable.step_add_node _ nodeB
          (Reachable.step_add_node _ nodeA Reachable.init))))
    (by decide)

/-- C4 counterexample: in storeGhost the node "n" is present and its
adjacency entry holds the edge id "ghost", absent from the edge table;
delete_node does NOT tolerate this — it returns exactly the edge-deletion
NotFound failure to its caller, because the cascade propagates it with the
question-mark operator. -/
theorem C4_counterexample :
    mlookup storeGhost.edges "ghost" = none ∧
    (delete_node storeGhost "n").1
      = .error "Edge with id ghost not found for deletion" :=
  ⟨rfl, rfl⟩

/-- C4 amended: during delete_node's cascading edge deletion, an edge id
collected from the adjacency indices but absent from the edge table is NOT
tolerated: whenever some collected id is missing, delete_node returns the
edge-deletion NotFound failure to its caller. -/
theorem C4_escalates_missing_edge (s : KBState) (nid : String)
    (hmiss : ∃ i ∈ edgesToRemove s nid, mlookup s.edges i = none) :
    ∃ j, (delete_node s nid).1
      = .error ("Edge with id " ++ j ++ " not found for deletion") := by
  obtain ⟨j, hj⟩ := deleteEdgesLoop_err (edgesToRemove s nid) s hmiss
  refine ⟨j, ?_⟩
  unfold delete_node
  cases hloop : deleteEdgesLoop (edgesToRemove s nid) s with
  | mk r s₂ =>
    rw [hloop] at hj
    cases r with
    | error msg => exact hj
    | ok u => exact Except.noConfusion hj

/-- C4 witness: the amended escalation at the concrete store storeGhost. -/
theorem C4_witness :
    ∃ j, (delete_node storeGhost "n").1
      = .error ("Edge with id " ++ j ++ " not found for deletion") :=
  C4_escalates_missing_edge storeGhost "n" ⟨"ghost", by decide, rfl⟩

/-- C5 counterexample: the claim fails when the incoming edge's id already
exists in the edge table: in storeConflict, edgeMissingSrc has an absent
source node, yet add_edge fails with the Conflict message, not with either
NotFound message. -/
theorem C5_counterexample :
    mlookup storeConflict.nodes edgeMissingSrc.source_node_id = none ∧
    add_edge storeConflict edgeMissingSrc
      = (.error "Edge with id e1 already exists", storeConflict) ∧
    ¬ ((add_edge storeConflict edgeMissingSrc).1
        = .error ("Source node " ++ edgeMissingSrc.source_node_id
                  ++ " not found for edge " ++ edgeMissingSrc.id)
      ∨ (add_edge storeConflict edgeMissingSrc).1
        = .error ("Target node " ++ edgeMissingSrc.target_node_id
                  ++ " not found for edge " ++ edgeMissingSrc.id)) := by
  have hres : (add_edge storeConflict edgeMissingSrc).1
      = Except.error "Edge with id e1 already exists" := rfl
  refine ⟨rfl, rfl, ?_⟩
  rintro (h | h) <;> rw [hres] at h <;> rw [Except.error.injEq] at h <;>
    exact absurd h (by decide)

/-- C5 amended: for every store state and every edge whose id is not
already present in the edge table and whose source or target node is
absent, add_edge fails with the corresponding NotFound failure and leaves
the whole state (edge table and both adjacency indices) unchanged. -/
theorem C5_add_edge_missing_endpoint (s : KBState) (e : Edge)
    (hfresh : mlookup s.edges e.id = none)
    (hmiss : mlookup s.nodes e.source_node_id = none
           ∨ mlookup s.nodes e.target_node_id = none) :
    add_edge s e = (.error ("Source node " ++ e.source_node_id
                    ++ " not found for edge " ++ e.id), s)
    ∨ add_edge s e = (.error ("Target node " ++ e.target_node_id
                    ++ " not found for edge " ++ e.id), s) := by
  cases hsrc : mlookup s.nodes e.source_node_id with
  | none =>
    left
    simp [add_edge, hfresh, hsrc]
  | some n =>
    rcases hmiss with hm | hm
    · rw [hsrc] at hm
      cases hm
    · right
      simp [add_edge, hfresh, hsrc, hm]

/-- C5 witness: adding a fresh edge with a missing source to storeAB. -/
theorem C5_witness :
    add_edge storeAB edgeFreshMissing
      = (.error ("Source node " ++ edgeFreshMissing.source_node_id
          ++ " not found for edge " ++ edgeFreshMissing.id), storeAB)
    ∨ add_edge storeAB edgeFreshMissing
      = (.error ("Target node " ++ edgeFreshMissing.target_node_id
          ++ " not found for edge " ++ edgeFreshMissing.id), storeAB) :=
  C5_add_edge_missing_endpoint storeAB edgeFreshMissing rfl (Or.inl rfl)

/-- C6: a second add_node with an id already present in the node table
fails with the Conflict failure and changes nothing: the whole state is
returned unchanged and the previously stored node is still there. -/
theorem C6_add_node_conflict (s : KBState) (n old : Node)
    (h : mlookup s.nodes n.id = some old) :
    add_node s n = (.error ("Node with id " ++ n.id ++ " already exists"), s)
    ∧ mlookup (add_node s n).2.nodes n.id = some old := by
  constructor
  · simp [add_node, h]
  · simp [add_node, h]

/-- C6 witness: re-adding nodeA to storeAB. -/
theorem C6_witness :
    add_node storeAB nodeA
      = (.error ("Node with id " ++ nodeA.id ++ " already exists"), storeAB)
    ∧ mlookup (add_node storeAB nodeA).2.nodes nodeA.id = some nodeA :=
  C6_add_node_conflict storeAB nodeA nodeA rfl

/-- C7: update_node_properties has shallow-merge semantics. On a node with
object-shaped stored properties and an object patch (with distinct keys),
the call succeeds, every patch key ends up mapped to its patch value, every
other key keeps its stored value, and in particular patching with a:1 and
then b:2 produces properties holding both a:1 and b:2. -/
theorem C7_update_node_properties_merge (s : KBState) (nid : String)
    (node : Node) (cur pm : SMap Json) (now : Nat)
    (hnode : mlookup s.nodes nid = some node)
    (hprops : node.properties = .obj cur)
    (hnd : (pm.map Prod.fst).Nodup) :
    ((update_node_properties s nid (.obj pm) now).1 = .ok ()
      ∧ ∃ props,
        (∃ node', mlookup (update_node_properties s nid (.obj pm) now).2.nodes
            nid = some node' ∧ node'.properties = .obj props)
        ∧ (∀ k v, mlookup pm k = some v → mlookup props k = some v)
        ∧ (∀ k, mlookup pm k = none → mlookup props k = mlookup cur k))
    ∧ ∀ now₁ now₂ : Nat, ∃ node₂ props₂,
        mlookup (update_node_properties
            (update_node_properties s nid (.obj [("a", .num 1)]) now₁).2 nid
            (.obj [("b", .num 2)]) now₂).2.nodes nid = some node₂
        ∧ node₂.properties = .obj props₂
        ∧ mlookup props₂ "a" = some (.num 1)
        ∧ mlookup props₂ "b" = some (.num 2) := by
  obtain ⟨hok, hstore⟩ := update_node_props_ok s nid node cur pm now hnode hprops
  constructor
  · refine ⟨hok, mergeFold cur pm, ⟨_, hstore, rfl⟩, ?_, ?_⟩
    · intro k v hv
      exact mlookup_mergeFold_of_some cur pm k v hnd hv
    · intro k hk
      exact mlookup_mergeFold_of_none cur pm k hk
  · intro now₁ now₂
    obtain ⟨hok₁, hstore₁⟩ :=
      update_node_props_ok s nid node cur [("a", .num 1)] now₁ hnode hprops
    obtain ⟨hok₂, hstore₂⟩ :=
      update_node_props_ok _ nid _ (mergeFold cur [("a", .num 1)])
        [("b", .num 2)] now₂ hstore₁ rfl
    refine ⟨_, mergeFold (mergeFold cur [("a", .num 1)]) [("b", .num 2)],
      hstore₂, rfl, ?_, ?_⟩
    · rw [mlookup_mergeFold_of_none (mergeFold cur [("a", Json.num 1)])
            [("b", Json.num 2)] "a" rfl]
      exact mlookup_mergeFold_of_some cur _ "a" (.num 1) (by decide) rfl
    · exact mlookup_mergeFold_of_some _ _ "b" (.num 2) (by decide) rfl

/-- C7 witness: the merge behavior on the concrete store storeP. -/
theorem C7_witness :
    ((update_node_properties storeP "p" (.obj [("y", .num 3)]) 4).1 = .ok ()
      ∧ ∃ props,
        (∃ node', mlookup (update_node_properties storeP "p"
            (.obj [("y", .num 3)]) 4).2.nodes "p" = some node'
          ∧ node'.properties = .obj props)
        ∧ (∀ k v, mlookup [("y", Json.num 3)] k = some v
            → mlookup props k = some v)
        ∧ (∀ k, mlookup [("y", Json.num 3)] k = none
            → mlookup props k = mlookup [("x", Json.num 9)] k))
    ∧ ∀ now₁ now₂ : Nat, ∃ node₂ props₂,
        mlookup (update_node_properties
            (update_node_properties storeP "p" (.obj [("a", .num 1)]) now₁).2
            "p" (.obj [("b", .num 2)]) now₂).2.nodes "p" = some node₂
        ∧ node₂.properties = .obj props₂
        ∧ mlookup props₂ "a" = some (.num 1)
        ∧ mlookup props₂ "b" = some (.num 2) :=
  C7_update_node_properties_merge storeP "p" nodeP [("x", .num 9)]
    [("y", .num 3)] 4 rfl rfl (by decide)

/-- C9: when the collaborator's response text does not parse and
deserialize into the expected shape (an object with entities and relations
lists of well-formed items), extract_from_text fails with the ParseFailure
message and returns no nodes or edges — the failure is terminal for the
call. -/
theorem C9_parse_failure (llmtext : String)
    (parseJson : String → Except String Json) (uuids : Nat → String)
    (now : Nat) (ctx : ExtractionContext) (text emsg : String)
    (h : (parseJson llmtext).bind LlmExtractionOutput.fromJson
          = .error emsg) :
    extract_from_text (.ok llmtext) parseJson uuids now ctx text
      = .error ("Failed to parse LLM JSON output for extraction: " ++ emsg
                ++ ". Output was: " ++ llmtext) := by
  simp only [extract_from_text, h]

/-- C9 witness: a collaborator response that is not valid JSON. -/
theorem C9_witness :
    extract_from_text (.ok "not json") (fun _ => .error "expected value")
        (fun _ => "u") 0 ctx0 "some text"
      = .error ("Failed to parse LLM JSON output for extraction: "
                ++ "expected value" ++ ". Output was: " ++ "not json") :=
  C9_parse_failure "not json" (fun _ => .error "expected value")
    (fun _ => "u") 0 ctx0 "some text" "expected value" rfl

/-- C10: direction matching in get_edges_by_node_id is exact and
case-sensitive, and an unrecognized direction string is not an error: for
every store state, node id and direction other than exactly "outgoing",
"incoming" or "both", the call returns success with the empty edge list. -/
theorem C10_unknown_direction_empty (s : KBState) (nid d : String)
    (h1 : ¬ d = "outgoing") (h2 : ¬ d = "incoming") (h3 : ¬ d = "both") :
    get_edges_by_node_id s nid (some d) = .ok [] := by
  simp only [get_edges_by_node_id, Option.getD_some]
  rw [if_neg (fun h => h.elim h2 h3)]
  rw [if_neg (fun h => h.elim h1 h3)]
  rfl

/-- C10 witness: direction "OUT" on storeBoth, where node "a" has both an
outgoing and an incoming edge. -/
theorem C10_witness : get_edges_by_node_id storeBoth "a" (some "OUT") = .ok [] :=
  C10_unknown_direction_empty storeBoth "a" "OUT"
    (by decide) (by decide) (by decide)

/-- C2 counterexample: on the spec scenario (collaborator document
scenarioJson), the returned value holds exactly one (node, edges) pair and
no Tool-typed node at all, so the result does not contain two nodes with
one of type Tool — only the first batch node is returned, paired with all
extracted edges. -/
theorem C2_counterexample :
    (extract_from_text (.ok "resp") (fun _ => .ok scenarioJson)
        (fun _ => "u") 0 ctx0 "Alice uses the Compiler tool").map
      (fun l => (l.length,
        (l.filter (fun p => decide (p.1.node_type = NodeType.Tool))).length,
        (l.filter (fun p =>
          decide (p.1.node_type = NodeType.ExternalEntity))).length))
      = .ok (1, 0, 1) := by
  rfl

/-- C2 amended: on the spec scenario the pipeline internally builds the two
expected nodes (Alice mapped to ExternalEntity, Compiler mapped to Tool)
and exactly one UsesTool edge from Alice's id to Compiler's id, but the
returned value is a single pair: the first batch node (Alice's) together
with the full edge list holding that one edge. -/
theorem C2_scenario (llmtext : String)
    (parseJson : String → Except String Json) (uuids : Nat → String)
    (now : Nat) (ctx : ExtractionContext) (text : String)
    (h : parseJson llmtext = .ok scenarioJson) :
    extract_from_text (.ok llmtext) parseJson uuids now ctx text
      = .ok [(Node.new ("urn:goose:entity:person:" ++ uuids 0)
                .ExternalEntity (.obj [("name", .str "Alice")]) now,
              [{ id := uuids 2,
                 source_node_id := "urn:goose:entity:person:" ++ uuids 0,
                 target_node_id := "urn:goose:entity:tool:" ++ uuids 1,
                 edge_type := .UsesTool, properties := .null,
                 created_at := now, updated_at := now }])] := by
  simp only [extract_from_text, h]
  rfl

/-- C2 witness: the amended scenario at a concrete uuid supply and clock. -/
theorem C2_witness :
    extract_from_text (.ok "resp") (fun _ => .ok scenarioJson)
        (fun n => Nat.repr n) 5 ctx0 "Alice uses the Compiler tool"
      = .ok [(Node.new ("urn:goose:entity:person:" ++ Nat.repr 0)
                .ExternalEntity (.obj [("name", .str "Alice")]) 5,
              [{ id := Nat.repr 2,
                 source_node_id := "urn:goose:entity:person:" ++ Nat.repr 0,
                 target_node_id := "urn:goose:entity:tool:" ++ Nat.repr 1,
                 edge_type := .UsesTool, properties := .null,
                 created_at := 5, updated_at := 5 }])] :=
  C2_scenario "resp" (fun _ => .ok scenarioJson) (fun n => Nat.repr n) 5
    ctx0 "Alice uses the Compiler tool" rfl

/-- C8 counterexample: with entities A (resolving to ExternalEntity) and B
(resolving to Tool) and one relation naming the absent entity C, the call
succeeds but its value holds a single pair and no Tool-typed node: the
successfully resolved entity B is NOT part of the returned value, so the
call does not return the successfully resolved entities of the batch. -/
theorem C8_counterexample :
    (extract_from_text (.ok "resp") (fun _ => .ok c8Json)
        (fun _ => "u") 0 ctx0 "A uses the B tool").map
      (fun l => (l.length,
        (l.filter (fun p => decide (p.1.node_type = NodeType.Tool))).length))
      = .ok (1, 0) := by
  rfl

/-- C8 amended: a relation whose source or target name does not resolve in
the batch map is dropped — it contributes no edge — and the call still
succeeds; the resolved entities are still built, and (per the return-shape
fallback) the value pairs the first batch node with the edges of the
resolvable relations only. -/
theorem C8_drop_unresolved_relation (llmtext : String)
    (parseJson : String → Except String Json) (uuids : Nat → String)
    (now : Nat) (ctx : ExtractionContext) (text : String)
    (out : LlmExtractionOutput) (r : ExtractedRelationInfo)
    (hparse : (parseJson llmtext).bind LlmExtractionOutput.fromJson = .ok out)
    (hr : r ∈ out.relations)
    (hmiss : resolvable (batchMap uuids now out) r = false) :
    ∃ l, extract_from_text (.ok llmtext) parseJson uuids now ctx text = .ok l
      ∧ (∀ p ∈ l, p.2.length
            = (out.relations.filter (resolvable (batchMap uuids now out))).length
          ∧ p.2.length < out.relations.length)
      ∧ l.map Prod.fst = ((batchMap uuids now out).map Prod.snd).take 1 := by
  simp only [extract_from_text, hparse]
  cases hvals : (processEntities uuids now out.entities [] 0).1.map Prod.snd with
  | nil =>
    refine ⟨[], ?_, ?_, ?_⟩
    · rfl
    · intro p hp
      cases hp
    · show [] = ((batchMap uuids now out).map Prod.snd).take 1
      unfold batchMap
      rw [hvals]
      rfl
  | cons n rest =>
    refine ⟨_, rfl, ?_, ?_⟩
    · intro p hp
      rcases List.mem_singleton.mp hp with rfl
      constructor
      · show (processRelations uuids now out.relations
            (processEntities uuids now out.entities [] 0).1
            (processEntities uuids now out.entities [] 0).2).1.length = _
        rw [processRelations_length]
        rfl
      · show (processRelations uuids now out.relations
            (processEntities uuids now out.entities [] 0).1
            (processEntities uuids now out.entities [] 0).2).1.length < _
        rw [processRelations_length]
        exact filter_length_lt out.relations _ r hr hmiss
    · show [n] = ((batchMap uuids now out).map Prod.snd).take 1
      unfold batchMap
      rw [hvals]
      rfl

/-- C8 witness: the amended behavior on the concrete document c8Json. -/
theorem C8_witness :
    ∃ l, extract_from_text (.ok "resp") (fun _ => .ok c8Json)
          (fun _ => "u") 0 ctx0 "A uses the B tool" = .ok l
      ∧ (∀ p ∈ l, p.2.length
            = (c8Output.relations.filter
                (resolvable (batchMap (fun _ => "u") 0 c8Output))).length
          ∧ p.2.length < c8Output.relations.length)
      ∧ l.map Prod.fst
          = ((batchMap (fun _ => "u") 0 c8Output).map Prod.snd).take 1 :=
  C8_drop_unresolved_relation "resp" (fun _ => .ok c8Json) (fun _ => "u") 0
    ctx0 "A uses the B tool" c8Output ⟨"A", "C", "Uses", none⟩ rfl
    (List.mem_cons_self _ _) rfl

end KB
